import Mathlib

/-!
Verification of the BT_scraping tour-extraction and CSV-merge pipeline.

The definitions below are a shallow embedding of the Python sources
`categorized_extractor.py` and `merge_csv_data.py`.  Pure text processing is
translated function-by-function; HTTP fetching and HTML parsing are treated
as external inputs (a fetched page is a value, a fetch that can fail is an
`Except`), matching the scope of the specification.

All string operations are implemented by structural recursion over
`List Char` so that every definition evaluates inside the kernel; each
helper mirrors the corresponding Python `str` method on the inputs that
occur in this code base (ASCII text).
-/

namespace BT

/-- Build a string back from its characters. -/
def ofChars (l : List Char) : String := String.mk l

/-- Python whitespace test for `str.strip` / `str.split` (ASCII inputs). -/
def isSpace (c : Char) : Bool := c.isWhitespace

/-- Python `str.strip()`: drop whitespace from both ends. -/
def stripC (l : List Char) : List Char :=
  ((l.dropWhile isSpace).reverse.dropWhile isSpace).reverse

/-- Python `str.split()` with no arguments: whitespace-run separated words. -/
def pySplitC : List Char → List (List Char)
  | [] => []
  | c :: rest =>
    if isSpace c then pySplitC rest
    else
      match pySplitC rest with
      | [] => [[c]]
      | w :: ws => if isSpace (rest.headD ' ') then [c] :: w :: ws else (c :: w) :: ws

/-- If `pre` is a prefix of `l`, the remainder after it. -/
def stripPre : List Char → List Char → Option (List Char)
  | [], l => some l
  | _ :: _, [] => none
  | p :: ps, c :: cs => if c = p then stripPre ps cs else none

/-- Python `str.split(sep)` for a nonempty separator, fuelled structural
recursion (fuel at least the input length always suffices). -/
def splitSepAux (sep : List Char) : Nat → List Char → List Char → List (List Char)
  | _, [], acc => [acc.reverse]
  | 0, l, acc => [acc.reverse ++ l]
  | fuel + 1, l@(c :: rest), acc =>
    match stripPre sep l with
    | some r => acc.reverse :: splitSepAux sep fuel r []
    | none => splitSepAux sep fuel rest (c :: acc)

/-- Python `str.split(sep)`. -/
def splitSepC (sep l : List Char) : List (List Char) :=
  splitSepAux sep l.length l []

/-- Python `str.replace(pat, rep)` for a nonempty pattern, fuelled. -/
def replaceAux (pat rep : List Char) : Nat → List Char → List Char
  | _, [] => []
  | 0, l => l
  | fuel + 1, l@(c :: rest) =>
    match stripPre pat l with
    | some r => rep ++ replaceAux pat rep fuel r
    | none => c :: replaceAux pat rep fuel rest

/-- Python `str.replace(pat, rep)`. -/
def replaceC (pat rep l : List Char) : List Char :=
  replaceAux pat rep l.length l

/-- ASCII lower-casing, the effect of Python `str.lower()` on this data. -/
def lowerChar (c : Char) : Char :=
  if 65 ≤ c.toNat && c.toNat ≤ 90 then Char.ofNat (c.toNat + 32) else c

/-- Python `str.lower()`. -/
def lowerC (l : List Char) : List Char := l.map lowerChar

/-- Python `str.startswith`. -/
def startsWithC (pre l : List Char) : Bool := (stripPre pre l).isSome

/-- Python `str.endswith`. -/
def endsWithC (suf l : List Char) : Bool := startsWithC suf.reverse l.reverse

/-- Python `needle in haystack` substring test. -/
def containsC (needle : List Char) : List Char → Bool
  | [] => (stripPre needle []).isSome
  | l@(_ :: rest) => startsWithC needle l || containsC needle rest

/-- Python `sep.join(words)`. -/
def joinSepC (sep : List Char) : List (List Char) → List Char
  | [] => []
  | [w] => w
  | w :: ws => w ++ sep ++ joinSepC sep ws

/-- All characters are decimal digits. -/
def allDigits (l : List Char) : Bool := l.all Char.isDigit

/-- Value of a digit string. -/
def digitsToNat (l : List Char) : Nat :=
  l.foldl (fun n c => n * 10 + (c.toNat - '0'.toNat)) 0

/-- Python `int(str)` restricted to the shapes that occur here: optional
surrounding whitespace, an optional sign, then decimal digits.  Returns
`none` where Python raises `ValueError`. -/
def pyIntC (l : List Char) : Option Int :=
  let t := stripC l
  match t with
  | [] => none
  | '-' :: d => if d ≠ [] && allDigits d then some (-(digitsToNat d : Int)) else none
  | '+' :: d => if d ≠ [] && allDigits d then some ((digitsToNat d : Int)) else none
  | _ => if allDigits t then some ((digitsToNat t : Int)) else none

/-- Calendar date, the content of a Python `datetime` as used by the merge
script (the time part is always midnight there). -/
structure Date where
  year : Nat
  month : Nat
  day : Nat
deriving DecidableEq

/-- Gregorian leap-year rule, as in Python `datetime`. -/
def isLeap (y : Nat) : Bool :=
  y % 4 = 0 && (y % 100 ≠ 0 || y % 400 = 0)

/-- Days in a month, as validated by the Python `datetime` constructor. -/
def daysInMonth (y m : Nat) : Nat :=
  if m = 2 then (if isLeap y then 29 else 28)
  else if m = 4 || m = 6 || m = 9 || m = 11 then 30
  else 31

/-- Validity check performed by the `datetime` constructor (year at least 1,
month 1..12, day within the month). -/
def validDate (y m d : Nat) : Bool :=
  1 ≤ y && 1 ≤ m && m ≤ 12 && 1 ≤ d && d ≤ daysInMonth y m

/-- First-match association-list lookup (model of Python `dict.get`). -/
def lookupAssoc {α : Type} (k : String) : List (String × α) → Option α
  | [] => none
  | (k', v) :: rest => if k' = k then some v else lookupAssoc k rest

/-- Abbreviated month names recognised by the abbreviated-month `strptime`
directive, lowercased (that match is case-insensitive). -/
def monthAbbrs : List (String × Nat) :=
  [("jan", 1), ("feb", 2), ("mar", 3), ("apr", 4), ("may", 5), ("jun", 6),
   ("jul", 7), ("aug", 8), ("sep", 9), ("oct", 10), ("nov", 11), ("dec", 12)]

/-- Full month names recognised by the full-month `strptime` directive. -/
def monthFulls : List (String × Nat) :=
  [("january", 1), ("february", 2), ("march", 3), ("april", 4), ("may", 5),
   ("june", 6), ("july", 7), ("august", 8), ("september", 9), ("october", 10),
   ("november", 11), ("december", 12)]

/-- Model of `strptime` with format "day month year" where the month is drawn from a
given name table: the day is 1 or 2 digits, the year exactly 4 digits, the
groups separated by whitespace runs, and the resulting date must be valid.
CPython compiles the format to a regex of exactly this shape. -/
def strptimeDMY (table : List (String × Nat)) (l : List Char) : Option Date :=
  match pySplitC l with
  | [ds, ms, ys] =>
    if 1 ≤ ds.length && ds.length ≤ 2 && allDigits ds then
      match lookupAssoc (ofChars (lowerC ms)) table with
      | some m =>
        if ys.length = 4 && allDigits ys then
          let d := digitsToNat ds
          let y := digitsToNat ys
          if validDate y m d then some ⟨y, m, d⟩ else none
        else none
      | none => none
    else none
  | _ => none

/-- Model of `parse_json_date` from merge_csv_data.py: strip, try the abbreviated
month format, then fall back to the full month format. -/
def parse_json_date (date_part : List Char) : Option Date :=
  match strptimeDMY monthAbbrs (stripC date_part) with
  | some d => some d
  | none => strptimeDMY monthFulls (stripC date_part)

/-- Model of `normalize_tour_name` from merge_csv_data.py: drop colons, turn
ampersands and dashes into spaces, collapse whitespace. -/
def normalize_tour_name (name : String) : String :=
  if name = "" then ""
  else
    let n1 := replaceC [':'] [] name.data
    let n2 := replaceC ['&'] [' '] n1
    let n3 := replaceC ['-'] [' '] n2
    ofChars (stripC (joinSepC [' '] (pySplitC n3)))

/-- Model of `extract_dates_from_json_string` from merge_csv_data.py: split the
display string on " - " into start segment, end segment and status, borrow
the year from the end segment for the start date, and parse both dates. -/
def extract_dates_from_json_string (date_string : String) :
    Option (Date × Date × String) :=
  match splitSepC [' ', '-', ' '] date_string.data with
  | start0 :: end0 :: status0 :: _ =>
    let start_part := stripC start0
    let end_part := stripC end0
    let status := stripC status0
    match pySplitC end_part with
    | [_, _, year] =>
      let start_date_str := start_part ++ [' '] ++ year
      match parse_json_date start_date_str, parse_json_date end_part with
      | some start_date, some end_date => some (start_date, end_date, ofChars status)
      | _, _ => none
    | _ => none
  | _ => none

/-- The six currency codes of the pipeline. -/
inductive Currency
  | USD | NZD | GBP | EUR | CAD | AUD
deriving DecidableEq

/-- The currency code as a string. -/
def Currency.code : Currency → String
  | .USD => "USD" | .NZD => "NZD" | .GBP => "GBP"
  | .EUR => "EUR" | .CAD => "CAD" | .AUD => "AUD"

/-- Iteration order of the `currency_mapping` dict in
`_extract_all_currency_prices` and of the currency loop in
`load_global_prices` (Python dicts and lists preserve order). -/
def currencyOrder : List Currency :=
  [.USD, .NZD, .GBP, .EUR, .CAD, .AUD]

/-- A currency-keyed mapping with nullable integer values, the JSON shape of
both the tour-level `price` object (keys `price_<CCY>`) and each side of the
per-date price matrix. -/
structure CurrencyMap where
  USD : Option Int
  NZD : Option Int
  GBP : Option Int
  EUR : Option Int
  CAD : Option Int
  AUD : Option Int
deriving DecidableEq

/-- Look a currency up in a `CurrencyMap`. -/
def CurrencyMap.get (m : CurrencyMap) : Currency → Option Int
  | .USD => m.USD | .NZD => m.NZD | .GBP => m.GBP
  | .EUR => m.EUR | .CAD => m.CAD | .AUD => m.AUD

/-- Update one currency of a `CurrencyMap`. -/
def CurrencyMap.set (m : CurrencyMap) : Currency → Option Int → CurrencyMap
  | .USD, v => { m with USD := v }
  | .NZD, v => { m with NZD := v }
  | .GBP, v => { m with GBP := v }
  | .EUR, v => { m with EUR := v }
  | .CAD, v => { m with CAD := v }
  | .AUD, v => { m with AUD := v }

/-- The deposit/main price matrix attached to a ledger date row. -/
structure DatePrices where
  deposit : CurrencyMap
  main : CurrencyMap
deriving DecidableEq

/-- One parsed row of a tour-dates ledger CSV, as produced by
`load_csv_data`: both endpoint dates parsed, the seat count, and the price
matrix. -/
structure CsvRow where
  start_date : Date
  end_date : Date
  available_spaces : Int
  prices : DatePrices
deriving DecidableEq

/-- One element of a starting-dates list: either the bare display string of
the extractor output, or the enriched object the merge step produces. -/
inductive DateEntry
  | bare (s : String)
  | enriched (date : String) (status : String)
      (available_spaces : Option Int) (prices : Option DatePrices)
deriving DecidableEq

/-- Is a list element still in the bare display-string form? -/
def DateEntry.isBare : DateEntry → Bool
  | .bare _ => true
  | .enriched .. => false

/-- One itinerary day record. -/
structure DayData where
  title : String
  desc : String
  meals_incl : List String
  roomtype : String
  activities_incl : List String
deriving DecidableEq

/-- The full tour record, with the top-level keys of the output JSON.  The
`seo_data` and `tour_information` payloads are carried opaquely (the merge
step never looks inside them). -/
structure Tour where
  tour_name : String
  tour_id : String
  url : String
  country : String
  last_updated : String
  status : String
  tour_colour : String
  seo_data : String
  tour_information : String
  itinerary : List (String × DayData)
  starting_dates : List DateEntry
  price : CurrencyMap
deriving DecidableEq

/-- A raw CSV row: column name to cell text.  `rowGet` is Python
`row.get(key, '')`. -/
abbrev RawRow : Type := List (String × String)

/-- Python `row.get(key, '')` on a raw CSV row. -/
def rowGet (row : RawRow) (key : String) : String :=
  (lookupAssoc key row).getD ""

/-- Cell-to-price conversion in `load_global_prices`:
`int(price_val) if price_val else None`, with any exception mapped to
`None`. -/
def parsePriceCell (s : String) : Option Int :=
  if s = "" then none else pyIntC s.data

/-- The `prices` dict built for one global-pricing CSV row: the main price
of each currency, in the loop order of the source. -/
def loadGlobalRowPrices (row : RawRow) : CurrencyMap where
  USD := parsePriceCell (rowGet row "Main Price USD")
  NZD := parsePriceCell (rowGet row "Main Price NZD")
  GBP := parsePriceCell (rowGet row "Main Price GBP")
  EUR := parsePriceCell (rowGet row "Main Price EUR")
  CAD := parsePriceCell (rowGet row "Main Price CAD")
  AUD := parsePriceCell (rowGet row "Main Price AUD")

/-- Python dict assignment `d[k] = v` on an association-list dict: any
previous binding of `k` is replaced. -/
def dictInsert {α : Type} (d : List (String × α)) (k : String) (v : α) :
    List (String × α) :=
  (d.filter (fun kv => kv.1 ≠ k)) ++ [(k, v)]

/-- Model of `load_global_prices` from merge_csv_data.py, over the concatenated rows
of the global-pricing CSV files: rows with an empty `Tour Name` are skipped,
and each kept row is stored under its original name and (when different)
its normalized name. -/
def load_global_prices (rows : List RawRow) : List (String × CurrencyMap) :=
  rows.foldl
    (fun gp row =>
      let tour_name := ofChars (stripC (rowGet row "Tour Name").data)
      if tour_name = "" then gp
      else
        let prices := loadGlobalRowPrices row
        let gp1 := dictInsert gp tour_name prices
        let normalized_name := normalize_tour_name tour_name
        if normalized_name ≠ tour_name then dictInsert gp1 normalized_name prices
        else gp1)
    []

/-- Model of `match_dates` from merge_csv_data.py: parse the display string, then
return the first ledger row whose two endpoint dates both equal the parsed
ones. -/
def match_dates (json_date_str : String) (csv_dates : List CsvRow) :
    Option CsvRow :=
  match extract_dates_from_json_string json_date_str with
  | none => none
  | some (json_start, json_end, _) =>
    csv_dates.find?
      (fun r => decide (r.start_date = json_start ∧ r.end_date = json_end))

/-- The per-entry body of the starting-dates loop in
`enhance_json_with_csv_data`: an entry that is not a string makes
`extract_dates_from_json_string` raise (caught, returning `None`), so it is
kept as is; an unparseable string is kept as is; a parseable string becomes
the enriched object, with the matched ledger row data or nulls. -/
def enhanceDateEntry (csv_rows : List CsvRow) : DateEntry → DateEntry
  | .enriched d s a p => .enriched d s a p
  | .bare date_str =>
    match extract_dates_from_json_string date_str with
    | none => .bare date_str
    | some (_, _, status) =>
      match match_dates date_str csv_rows with
      | some csv_match =>
        .enriched date_str status (some csv_match.available_spaces)
          (some csv_match.prices)
      | none => .enriched date_str status none none

/-- Python truthiness of an optional list (`if not csv_tour_dates`): false
for a missing key and for an empty list. -/
def truthyRows : Option (List CsvRow) → Bool
  | none => false
  | some l => !l.isEmpty

/-- The per-tour body of the loop in `enhance_json_with_csv_data`: skip
tours with an empty name; overwrite the tour-level price from the global
table under the exact or normalized name; then, when the tour has starting
dates and some ledger rows are found under the exact or normalized name,
rewrite every starting-dates entry through `enhanceDateEntry`. -/
def enhance_tour (global_prices : List (String × CurrencyMap))
    (csv_data : List (String × List CsvRow)) (tour : Tour) : Tour :=
  if tour.tour_name = "" then tour
  else
    let tp0 := lookupAssoc tour.tour_name global_prices
    let tour_prices :=
      match tp0 with
      | some p => some p
      | none => lookupAssoc (normalize_tour_name tour.tour_name) global_prices
    let t1 :=
      match tour_prices with
      | some p => { tour with price := p }
      | none => tour
    if tour.starting_dates.isEmpty then t1
    else
      let cd0 := lookupAssoc tour.tour_name csv_data
      let csv_tour_dates :=
        if truthyRows cd0 then cd0
        else lookupAssoc (normalize_tour_name tour.tour_name) csv_data
      match csv_tour_dates with
      | none => t1
      | some rows =>
        if rows.isEmpty then t1
        else { t1 with
                starting_dates := tour.starting_dates.map (enhanceDateEntry rows) }

/-- The whole merge loop of `enhance_json_with_csv_data` over the tours
list. -/
def enhance_json_with_csv_data (global_prices : List (String × CurrencyMap))
    (csv_data : List (String × List CsvRow)) (tours : List Tour) : List Tour :=
  tours.map (enhance_tour global_prices csv_data)

/-- ASCII upper-casing of one character. -/
def upperChar (c : Char) : Char :=
  if 97 ≤ c.toNat && c.toNat ≤ 122 then Char.ofNat (c.toNat - 32) else c

/-- Python `str.title()` on ASCII text: a letter is uppercased when the
preceding character is not a letter, lowercased otherwise. -/
def pyTitleAux : Bool → List Char → List Char
  | _, [] => []
  | prevAlpha, c :: rest =>
    (if c.isAlpha then (if prevAlpha then lowerChar c else upperChar c) else c)
      :: pyTitleAux c.isAlpha rest

/-- Python `str.title()`. -/
def pyTitleC (l : List Char) : List Char := pyTitleAux false l

/-- The generic-phrase denylist of the h1 selector chain in
`_extract_tour_name`. -/
def h1Denylist : List (List Char) :=
  ["tours".data, "tour".data, "backpacking tours".data, "group tours".data,
   "backpacking".data, "adventure".data]

/-- The denylist of the title-tag path of `_extract_tour_name`. -/
def titleDenylist : List (List Char) :=
  ["tours".data, "tour".data, "backpacking tours".data, "group tours".data,
   "backpacking".data, "adventure".data, "home".data, "book".data]

/-- The strict validation applied to each h1 selector candidate: nonempty,
longer than 3 characters, lowercased text not on the denylist, not starting
with "book", not ending with "tours". -/
def h1Valid (title_text : List Char) : Bool :=
  let lt := lowerC title_text
  !title_text.isEmpty && title_text.length > 3
    && !h1Denylist.contains lt
    && !startsWithC "book".data lt
    && !endsWithC "tours".data lt

/-- The h1 selector chain: each selector either finds no node (`none`) or
yields the text of the located element; the first stripped text passing
`h1Valid` wins. -/
def h1Chain : List (Option String) → Option String
  | [] => none
  | none :: rest => h1Chain rest
  | some t :: rest =>
    let title_text := stripC t.data
    if h1Valid title_text then some (ofChars title_text) else h1Chain rest

/-- Does the boilerplate pattern (optional whitespace, a dash or pipe,
optional whitespace, then the given lowercase marker text, then anything to
the end) match at the head of the list?  This is the shape of the two
case-insensitive cleanup regexes on the title-tag path. -/
def matchBoilerAt (pat : List Char) (l : List Char) : Bool :=
  match l.dropWhile isSpace with
  | [] => false
  | c :: r2 =>
    (c = '-' || c = '|') && startsWithC pat (lowerC (r2.dropWhile isSpace))

/-- Index of the leftmost match of the boilerplate pattern. -/
def findBoiler (pat : List Char) : List Char → Option Nat
  | [] => none
  | l@(_ :: rest) =>
    if matchBoilerAt pat l then some 0 else (findBoiler pat rest).map (· + 1)

/-- One cleanup substitution: the match runs to the end of the (single-line)
title, so substituting it truncates at the leftmost match position. -/
def cleanSub (pat : List Char) (l : List Char) : List Char :=
  match findBoiler pat l with
  | some i => l.take i
  | none => l

/-- Both cleanup substitutions of the title-tag path: strip a
"- Backpacking Tours ..." suffix, then a "- BT ..." suffix. -/
def cleanTitle (l : List Char) : List Char :=
  cleanSub "bt".data (cleanSub "backpacking tours".data l)

/-- The validation of the cleaned title text: nonempty, longer than 3
characters, not on the (larger) denylist, not starting with "book", not
containing "cookie".  There is no ending-with-"tours" test here. -/
def titleValid (t : List Char) : Bool :=
  let lt := lowerC t
  !t.isEmpty && t.length > 3
    && !titleDenylist.contains lt
    && !startsWithC "book".data lt
    && !containsC "cookie".data lt

/-- The inputs of `_extract_tour_name`: the text located by each of the
seven h1 selectors, in chain order (`none` where the selector matches no
node; every selector targets an h1 element), and the text of the title tag
when present. -/
structure NamePage where
  h1Candidates : List (Option String)
  titleTag : Option String

/-- Model of `_extract_tour_name`: first valid h1 candidate, else the cleaned and
validated title tag, else the empty string (no URL fallback here). -/
def extract_tour_name (page : NamePage) : String :=
  match h1Chain page.h1Candidates with
  | some n => n
  | none =>
    match page.titleTag with
    | some raw =>
      let title_text := cleanTitle (stripC raw.data)
      if titleValid title_text then ofChars title_text else ""
    | none => ""

/-- The meal-name typo correction of `_validate_and_clean_data`. -/
def fix_meals (meals : List String) : List String :=
  meals.map (fun meal => if meal = "Brekfast" then "Breakfast" else meal)

/-- The price normalization of `_validate_and_clean_data`: a null currency
field becomes 0. -/
def zeroIfNone : Option Int → Option Int
  | none => some 0
  | some v => some v

/-- Price step of `_validate_and_clean_data` applied to the whole map. -/
def priceNullToZero (m : CurrencyMap) : CurrencyMap where
  USD := zeroIfNone m.USD
  NZD := zeroIfNone m.NZD
  GBP := zeroIfNone m.GBP
  EUR := zeroIfNone m.EUR
  CAD := zeroIfNone m.CAD
  AUD := zeroIfNone m.AUD

/-- The trailing segment of `url.split('/')`. -/
def lastUrlSeg (url : String) : List Char :=
  (splitSepC ['/'] url.data).getLastD []

/-- Model of `_validate_and_clean_data`: fix the breakfast typo in every itinerary
day, fall back to a URL-derived tour name when the name is still empty
(hyphens to spaces, title-cased), keep `starting_dates` a list (a no-op in
this typed model, where it always is one), and turn null prices into 0. -/
def validate_and_clean_data (t : Tour) : Tour :=
  let itinerary :=
    t.itinerary.map (fun kv => (kv.1, { kv.2 with meals_incl := fix_meals kv.2.meals_incl }))
  let tour_name :=
    if t.tour_name = "" then
      ofChars (pyTitleC (replaceC ['-'] [' '] (lastUrlSeg t.url)))
    else t.tour_name
  { t with itinerary := itinerary, tour_name := tour_name,
           price := priceNullToZero t.price }

/-- The mojibake euro marker appearing literally in the source regex for
EUR prices: the three characters U+00E2, U+201A, U+00AC. -/
def eurSymbol : List Char := [Char.ofNat 226, Char.ofNat 8218, Char.ofNat 172]

/-- The mojibake pound marker in the source regex for GBP prices: the two
characters U+00C2, U+00A3. -/
def gbpSymbol : List Char := [Char.ofNat 194, Char.ofNat 163]

/-- The currency marker searched for by `_extract_price_for_currency`. -/
def currencySymbol : Currency → List Char
  | .USD | .CAD | .AUD | .NZD => ['$']
  | .EUR => eurSymbol
  | .GBP => gbpSymbol

/-- All matches of the price regex (the marker, one digit, then a greedy
run of digits and commas) in one text, left to right and non-overlapping,
each converted to a number with the commas dropped.  Fuelled scan; fuel at
least the text length suffices. -/
def priceMatchesAux (sym : List Char) : Nat → List Char → List Nat
  | 0, _ => []
  | _, [] => []
  | fuel + 1, l@(_ :: rest) =>
    match stripPre sym l with
    | some r =>
      match r with
      | c :: _ =>
        if c.isDigit then
          let d1 := r.takeWhile Char.isDigit
          let r1 := r.dropWhile Char.isDigit
          let d2 := r1.takeWhile (fun ch => ch.isDigit || ch = ',')
          let r2 := r1.dropWhile (fun ch => ch.isDigit || ch = ',')
          digitsToNat (d1 ++ d2.filter Char.isDigit) :: priceMatchesAux sym fuel r2
        else priceMatchesAux sym fuel rest
      | [] => priceMatchesAux sym fuel rest
    | none => priceMatchesAux sym fuel rest

/-- All price-regex matches in a text. -/
def priceMatches (sym : List Char) (text : List Char) : List Nat :=
  priceMatchesAux sym text.length text

/-- Model of `_extract_price_for_currency`: over the stripped texts of the price
elements of the page, collect every matched amount above the plausibility
floor of 300, and return the maximum (0 when none). -/
def extract_price_for_currency (page : List String) (currency : Currency) : Nat :=
  let candidates :=
    (page.map (fun elemText =>
      (priceMatches (currencySymbol currency) (stripC elemText.data)).filter
        (fun n => 300 < n))).flatten
  candidates.foldl max 0

/-- One iteration of the currency loop in `_extract_all_currency_prices`:
the currency switch and page refetch are one fallible external step; any
exception leaves the price map untouched, and a zero (falsy) extracted
price is not written. -/
def stepCurrency (fetch : Currency → Except String (List String))
    (acc : CurrencyMap) (c : Currency) : CurrencyMap :=
  match fetch c with
  | .error _ => acc
  | .ok page =>
    let price := extract_price_for_currency page c
    if price ≠ 0 then acc.set c (some (price : Int)) else acc

/-- Model of `_extract_all_currency_prices`: the currency loop over the six
currencies in dict order, starting from the current price map. -/
def extract_all_currency_prices (fetch : Currency → Except String (List String))
    (price0 : CurrencyMap) : CurrencyMap :=
  currencyOrder.foldl (stepCurrency fetch) price0

/-- The initial `price` object of `extract_tour_data`: every currency 0. -/
def initPriceMap : CurrencyMap :=
  ⟨some 0, some 0, some 0, some 0, some 0, some 0⟩

/-- Python regex word character (ASCII range). -/
def isWordChar (c : Char) : Bool := c.isAlphanum || c = '_'

/-- Greedy match of the date-range pattern (digits, space, word, " - ",
digits, space, word, space, digits) at the head of the list, returning the
matched characters and the remainder.  Greedy maximal-munch is exact here
because every quantified class excludes the following literal. -/
def tryMatchDate (l : List Char) : Option (List Char × List Char) :=
  let d1 := l.takeWhile Char.isDigit
  let r1 := l.dropWhile Char.isDigit
  if d1.isEmpty then none else
  match r1 with
  | ' ' :: r2 =>
    let w1 := r2.takeWhile isWordChar
    let r3 := r2.dropWhile isWordChar
    if w1.isEmpty then none else
    match r3 with
    | ' ' :: '-' :: ' ' :: r4 =>
      let d2 := r4.takeWhile Char.isDigit
      let r5 := r4.dropWhile Char.isDigit
      if d2.isEmpty then none else
      match r5 with
      | ' ' :: r6 =>
        let w2 := r6.takeWhile isWordChar
        let r7 := r6.dropWhile isWordChar
        if w2.isEmpty then none else
        match r7 with
        | ' ' :: r8 =>
          let d3 := r8.takeWhile Char.isDigit
          let r9 := r8.dropWhile Char.isDigit
          if d3.isEmpty then none
          else some (d1 ++ [' '] ++ w1 ++ [' ', '-', ' '] ++ d2 ++ [' ']
                       ++ w2 ++ [' '] ++ d3, r9)
        | _ => none
      | _ => none
    | _ => none
  | _ => none

/-- All non-overlapping matches of the date-range pattern in a text, left
to right (the findall of the method-2 fallback). -/
def findAllDatesAux : Nat → List Char → List (List Char)
  | 0, _ => []
  | _, [] => []
  | fuel + 1, l@(_ :: rest) =>
    match tryMatchDate l with
    | some (m, r) => m :: findAllDatesAux fuel r
    | none => findAllDatesAux fuel rest

/-- All date-range pattern matches in a text. -/
def findAllDates (l : List Char) : List (List Char) :=
  findAllDatesAux l.length l

/-- Availability classification by keyword presence in the lowercased row
text, in source priority order. -/
def availabilityOf (row_text : String) : String :=
  let rt := lowerC row_text.data
  if containsC "book now".data rt || containsC "available".data rt then
    "Book Now"
  else if containsC "no availability".data rt || containsC "full".data rt
      || containsC "sold out".data rt then
    "No Availability"
  else if containsC "limited".data rt then "Limited"
  else "Available"

/-- One table row of the dates sub-resource: the text of its first cell
when it has one, and the full row text. -/
structure TableRow where
  firstCell : Option String
  rowText : String

/-- The parsed `html` fragment of the dates sub-resource: its table rows
and its full text. -/
structure DatesTable where
  rows : List TableRow
  pageText : String

/-- The date entries collected from the table fragment: method 1 takes each
row whose stripped first cell starts with the date pattern, tagging it with
the classified availability; when that finds nothing, method 2 scans the
whole text for date patterns, all tagged "Available". -/
def dateEntriesOfTable (table : DatesTable) : List String :=
  let method1 := table.rows.filterMap (fun row =>
    match row.firstCell with
    | none => none
    | some cellText =>
      let date_text := stripC cellText.data
      if (tryMatchDate date_text).isSome then
        some (ofChars date_text ++ " - " ++ availabilityOf row.rowText)
      else none)
  if method1.isEmpty then
    (findAllDates table.pageText.data).map (fun m => ofChars m ++ " - Available")
  else method1

/-- Order-preserving first-seen deduplication, as in the source loop with
its `seen` set. -/
def dedupFirstAux (seen : List String) : List String → List String
  | [] => []
  | d :: rest =>
    if seen.contains d then dedupFirstAux seen rest
    else d :: dedupFirstAux (d :: seen) rest

/-- Deduplicate preserving first-seen order. -/
def dedupFirst (l : List String) : List String := dedupFirstAux [] l

/-- The leftmost match of the numeric-id pattern (literal "/tour/", digits,
"/") in the page markup, as searched by `_extract_tour_id_from_page`. -/
def findTourIdAux : Nat → List Char → Option String
  | 0, _ => none
  | _, [] => none
  | fuel + 1, l@(_ :: rest) =>
    match stripPre "/tour/".data l with
    | some r =>
      let ds := r.takeWhile Char.isDigit
      let r2 := r.dropWhile Char.isDigit
      if !ds.isEmpty && (match r2 with | '/' :: _ => true | _ => false) then
        some (ofChars ds)
      else findTourIdAux fuel rest
    | none => findTourIdAux fuel rest

/-- Model of `_extract_tour_id_from_page`: a failed page fetch yields `none`, else
the leftmost "/tour/<digits>/" id in the markup. -/
def extract_tour_id_from_page (fetchPage : Except String String) : Option String :=
  match fetchPage with
  | .error _ => none
  | .ok html => findTourIdAux html.data.length html.data

/-- Model of `_extract_tour_dates`: resolve the numeric tour id from the page (any
failure gives the empty list); fetch the dates sub-resource (a request or
JSON-parse error, or a response without the `html` key, gives the empty
list); otherwise collect the date entries and deduplicate them.  The
starting-dates field is only ever assigned a complete result, never a
partial one. -/
def extract_tour_dates (fetchPage : Except String String)
    (fetchDates : Except String (Option DatesTable)) : List String :=
  match extract_tour_id_from_page fetchPage with
  | none => []
  | some _ =>
    match fetchDates with
    | .error _ => []
    | .ok none => []
    | .ok (some table) =>
      let date_entries := dateEntriesOfTable table
      if date_entries.isEmpty then [] else dedupFirst date_entries

/-- UTF-8 encoding of one character, as a list of byte values. -/
def utf8Bytes (c : Char) : List Nat :=
  let n := c.toNat
  if n < 128 then [n]
  else if n < 2048 then [192 + n / 64, 128 + n % 64]
  else if n < 65536 then [224 + n / 4096, 128 + (n / 64) % 64, 128 + n % 64]
  else [240 + n / 262144, 128 + (n / 4096) % 64, 128 + (n / 64) % 64, 128 + n % 64]

/-- UTF-8 bytes of a string (Python `str.encode()`). -/
def strBytes (s : String) : List Nat :=
  (s.data.map utf8Bytes).flatten

/-- Truncation to 32 bits. -/
def u32 (n : Nat) : Nat := n % 4294967296

/-- Left rotation within 32 bits. -/
def rotl32 (x n : Nat) : Nat :=
  u32 (x * 2 ^ n) ||| (x / 2 ^ (32 - n))

/-- Bitwise complement within 32 bits. -/
def not32 (x : Nat) : Nat := x ^^^ 4294967295

/-- The 64 MD5 sine-derived round constants. -/
def md5K : List Nat :=
  [3614090360, 3905402710, 606105819, 3250441966, 4118548399, 1200080426, 2821735955, 4249261313,
   1770035416, 2336552879, 4294925233, 2304563134, 1804603682, 4254626195, 2792965006, 1236535329,
   4129170786, 3225465664, 643717713, 3921069994, 3593408605, 38016083, 3634488961, 3889429448,
   568446438, 3275163606, 4107603335, 1163531501, 2850285829, 4243563512, 1735328473, 2368359562,
   4294588738, 2272392833, 1839030562, 4259657740, 2763975236, 1272893353, 4139469664, 3200236656,
   681279174, 3936430074, 3572445317, 76029189, 3654602809, 3873151461, 530742520, 3299628645,
   4096336452, 1126891415, 2878612391, 4237533241, 1700485571, 2399980690, 4293915773, 2240044497,
   1873313359, 4264355552, 2734768916, 1309151649, 4149444226, 3174756917, 718787259, 3951481745]

/-- The MD5 per-round left-rotation amounts. -/
def md5S : List Nat :=
  [7, 12, 17, 22, 7, 12, 17, 22, 7, 12, 17, 22, 7, 12, 17, 22,
   5, 9, 14, 20, 5, 9, 14, 20, 5, 9, 14, 20, 5, 9, 14, 20,
   4, 11, 16, 23, 4, 11, 16, 23, 4, 11, 16, 23, 4, 11, 16, 23,
   6, 10, 15, 21, 6, 10, 15, 21, 6, 10, 15, 21, 6, 10, 15, 21]

/-- Little-endian byte expansion of a number, to a fixed width. -/
def leBytes (width n : Nat) : List Nat :=
  (List.range width).map (fun i => (n / 256 ^ i) % 256)

/-- MD5 padding: a 0x80 byte, zeros to 56 mod 64, then the bit length as
eight little-endian bytes. -/
def md5Pad (msg : List Nat) : List Nat :=
  let len := msg.length
  let zeros := (119 - (len % 64)) % 64
  msg ++ [128] ++ List.replicate zeros 0 ++ leBytes 8 ((len * 8) % 2 ^ 64)

/-- The sixteen little-endian 32-bit words of one 64-byte chunk. -/
def chunkWord (chunk : List Nat) (j : Nat) : Nat :=
  match (chunk.drop (4 * j)).take 4 with
  | [b0, b1, b2, b3] => b0 + 256 * b1 + 65536 * b2 + 16777216 * b3
  | _ => 0

/-- One MD5 round: mixing function and message index depend on the round
quarter. -/
def md5Round (chunk : List Nat) (st : Nat × Nat × Nat × Nat) (i : Nat) :
    Nat × Nat × Nat × Nat :=
  let (a, b, c, d) := st
  let fg : Nat × Nat :=
    if i < 16 then ((b &&& c) ||| (not32 b &&& d), i)
    else if i < 32 then ((d &&& b) ||| (not32 d &&& c), (5 * i + 1) % 16)
    else if i < 48 then (b ^^^ c ^^^ d, (3 * i + 5) % 16)
    else (c ^^^ (b ||| not32 d), (7 * i) % 16)
  let f := u32 (fg.1 + a + md5K.getD i 0 + chunkWord chunk fg.2)
  (d, u32 (b + rotl32 f (md5S.getD i 0)), b, c)

/-- Process one 64-byte chunk. -/
def md5Chunk (st : Nat × Nat × Nat × Nat) (chunk : List Nat) :
    Nat × Nat × Nat × Nat :=
  let (a0, b0, c0, d0) := st
  let (a, b, c, d) := (List.range 64).foldl (md5Round chunk) st
  (u32 (a0 + a), u32 (b0 + b), u32 (c0 + c), u32 (d0 + d))

/-- Split into 64-byte chunks (fuelled; the padded length is a multiple of
64). -/
def toChunksAux : Nat → List Nat → List (List Nat)
  | 0, _ => []
  | _, [] => []
  | fuel + 1, l => l.take 64 :: toChunksAux fuel (l.drop 64)

/-- The 64-byte chunks of a byte list. -/
def toChunks (l : List Nat) : List (List Nat) := toChunksAux l.length l

/-- Lowercase hex digit. -/
def hexDigit (n : Nat) : Char :=
  if n < 10 then Char.ofNat (48 + n) else Char.ofNat (87 + n)

/-- Two-digit lowercase hex of a byte. -/
def byteHex (b : Nat) : List Char := [hexDigit (b / 16), hexDigit (b % 16)]

/-- The MD5 hex digest of a byte list. -/
def md5HexBytes (msg : List Nat) : String :=
  let st := (toChunks (md5Pad msg)).foldl md5Chunk
    (1732584193, 4023233417, 2562383102, 271733878)
  let (a, b, c, d) := st
  ofChars (((leBytes 4 a ++ leBytes 4 b ++ leBytes 4 c ++ leBytes 4 d).map byteHex).flatten)

/-- Model of `hashlib.md5(url.encode()).hexdigest()`. -/
def md5Hex (s : String) : String := md5HexBytes (strBytes s)

/-- Model of `_generate_tour_id` from categorized_extractor.py: the trailing URL
segment joined by an underscore with the first 8 hex digits of the MD5 of
the whole URL. -/
def generate_tour_id (url : String) : String :=
  let tour_slug := ofChars (lastUrlSeg url)
  let short_hash := ofChars ((md5Hex url).data.take 8) -- hexdigest()[:8]
  tour_slug ++ "_" ++ short_hash

/-- A starting-dates list mixes forms when it holds both a bare string and
an enriched object. -/
def mixedForms (l : List DateEntry) : Bool :=
  l.any DateEntry.isBare && l.any (fun e => !e.isBare)

/-- An empty currency map (all entries null). -/
def nullMap : CurrencyMap := ⟨none, none, none, none, none, none⟩

/-- A concrete global-pricing CSV row whose EUR cell (among others) is
absent, so `row.get` yields the empty string for it. -/
def c1Row : RawRow := [("Tour Name", "Island Hopper"), ("Main Price USD", "1200")]

/-- A concrete extracted tour record named like `c1Row`. -/
def c1Tour : Tour where
  tour_name := "Island Hopper"
  tour_id := "island-hopper_00000000"
  url := "https://example.com/island-hopper"
  country := ""
  last_updated := "2025-10-01"
  status := "active"
  tour_colour := "#0fba68"
  seo_data := "seo"
  tour_information := "info"
  itinerary := []
  starting_dates := []
  price := initPriceMap

/-- A concrete per-date price matrix. -/
def c2Prices : DatePrices where
  deposit := { nullMap with GBP := some 49 }
  main := { nullMap with GBP := some 800, USD := some 1000 }

/-- A concrete ledger row: 2025-10-06 to 2025-10-19, 3 seats. -/
def c2Row : CsvRow where
  start_date := ⟨2025, 10, 6⟩
  end_date := ⟨2025, 10, 19⟩
  available_spaces := 3
  prices := c2Prices

/-- A concrete tour whose starting dates hold one parseable and one
unparseable display string. -/
def c2Tour : Tour where
  tour_name := "Alpha"
  tour_id := "alpha_00000000"
  url := "https://example.com/alpha"
  country := ""
  last_updated := "2025-10-01"
  status := "active"
  tour_colour := ""
  seo_data := ""
  tour_information := ""
  itinerary := []
  starting_dates := [.bare "6 Oct - 19 Oct 2025 - Book Now", .bare "TBC"]
  price := initPriceMap

/-- The ledger row of the specification example: start 2025-10-06, end
2025-10-19, 3 available places. -/
def c3Row : CsvRow where
  start_date := ⟨2025, 10, 6⟩
  end_date := ⟨2025, 10, 19⟩
  available_spaces := 3
  prices := c2Prices

/-- A ledger row matching neither endpoint of the example string. -/
def c3RowOther : CsvRow where
  start_date := ⟨2025, 11, 3⟩
  end_date := ⟨2025, 11, 16⟩
  available_spaces := 5
  prices := c2Prices

/-- A concrete dates-table fragment with two rows. -/
def c6Table : DatesTable where
  rows := [⟨some " 6 Oct - 19 Oct 2025 ", "6 Oct - 19 Oct 2025 Book Now"⟩,
           ⟨some "6 Oct - 19 Oct 2025", "6 Oct - 19 Oct 2025 limited"⟩]
  pageText := ""







/-! ### Helper lemmas -/

theorem data_ofChars (l : List Char) : (ofChars l).data = l := rfl

theorem h1Chain_some_valid (cands : List (Option String)) (n : String)
    (h : h1Chain cands = some n) : h1Valid n.data = true := by
  induction cands with
  | nil => simp [h1Chain] at h
  | cons o rest ih =>
    cases o with
    | none =>
      simp only [h1Chain] at h
      exact ih h
    | some t =>
      simp only [h1Chain] at h
      by_cases hv : h1Valid (stripC t.data) = true
      · rw [if_pos hv] at h
        have h2 := Option.some.inj h
        subst h2
        exact hv
      · rw [if_neg hv] at h
        exact ih h

/-! ### Claim theorems -/

/-- Claim C8 (confirmed): the meal-name typo normalization of the
validation pass is idempotent, and on the concrete input
["Brekfast", "Lunch"] one and two applications both give
["Breakfast", "Lunch"]. -/
theorem fix_meals_idempotent :
    (∀ meals : List String, fix_meals (fix_meals meals) = fix_meals meals)
    ∧ fix_meals ["Brekfast", "Lunch"] = ["Breakfast", "Lunch"]
    ∧ fix_meals (fix_meals ["Brekfast", "Lunch"]) = ["Breakfast", "Lunch"] := by
  refine ⟨fun meals => ?_, by decide, by decide⟩
  induction meals with
  | nil => rfl
  | cons m rest ih =>
    simp only [fix_meals, List.map_cons] at ih ⊢
    rw [ih]
    congr 1
    by_cases h : m = "Brekfast"
    · subst h; decide
    · simp [h]

/-- Claim C4 (confirmed): the tour id is a deterministic function of the
URL alone, computed as the trailing URL segment joined with the first 8 hex
digits of the MD5 of the URL; on the concrete URL of the source test it
equals "backpacking-india_f9967488" (digest checked against the real MD5
of that URL). -/
theorem tour_id_deterministic :
    (∀ u₁ u₂ : String, u₁ = u₂ → generate_tour_id u₁ = generate_tour_id u₂)
    ∧ (∀ u : String, generate_tour_id u
        = ofChars (lastUrlSeg u) ++ "_" ++ ofChars ((md5Hex u).data.take 8))
    ∧ generate_tour_id
        "https://www.backpackingtours.com/book-a-backpacking-tour/backpacking-india"
        = "backpacking-india_f9967488" := by
  refine ⟨fun u₁ u₂ h => by rw [h], fun u => rfl, ?_⟩
  set_option maxRecDepth 10000 in decide

/-- Witness for C4 at a concrete URL. -/
theorem tour_id_deterministic_witness :
    generate_tour_id "https://e.com/a-tour" = generate_tour_id "https://e.com/a-tour" :=
  tour_id_deterministic.1 "https://e.com/a-tour" "https://e.com/a-tour" rfl

/-- Claim C7 (confirmed): when every h1 selector either finds nothing or
finds the sole h1 whose stripped text is exactly "Tours", the h1 chain
yields no name (denylist rejection); moreover the whole name extractor can
never output "Tours" on any page. -/
theorem tours_h1_rejected :
    (∀ cands : List (Option String),
        (∀ o ∈ cands, o = none ∨ ∃ s, o = some s ∧ ofChars (stripC s.data) = "Tours") →
        h1Chain cands = none)
    ∧ (∀ p : NamePage, extract_tour_name p ≠ "Tours") := by
  constructor
  · intro cands
    induction cands with
    | nil => intro _; rfl
    | cons o rest ih =>
      intro h
      have hrest := fun o ho => h o (List.mem_cons_of_mem _ ho)
      have ho := h o (List.mem_cons_self _ _)
      cases o with
      | none =>
        simp only [h1Chain]
        exact ih hrest
      | some t =>
        rcases ho with h1 | ⟨s, hs, hstrip⟩
        · exact absurd h1 (by simp)
        · have ht : t = s := Option.some.inj hs
          subst ht
          have hd : stripC t.data = "Tours".data := congrArg String.data hstrip
          simp only [h1Chain, hd]
          rw [if_neg (by decide)]
          exact ih hrest
  · intro p hEq
    unfold extract_tour_name at hEq
    rcases hch : h1Chain p.h1Candidates with _ | n
    · rw [hch] at hEq
      rcases ht : p.titleTag with _ | raw
      · rw [ht] at hEq
        exact absurd hEq (by decide)
      · rw [ht] at hEq
        dsimp only at hEq
        by_cases hv : titleValid (cleanTitle (stripC raw.data)) = true
        · rw [if_pos hv] at hEq
          have hd : cleanTitle (stripC raw.data) = "Tours".data :=
            congrArg String.data hEq
          rw [hd] at hv
          exact absurd hv (by decide)
        · rw [if_neg hv] at hEq
          exact absurd hEq (by decide)
    · rw [hch] at hEq
      dsimp only at hEq
      have hval := h1Chain_some_valid _ _ hch
      rw [hEq] at hval
      exact absurd hval (by decide)

/-- Witness for C7: a page whose single h1 reads "Tours" (one selector
missing, one finding it) gets no name from the h1 chain, and concretely
extracts the empty name. -/
theorem tours_h1_rejected_witness :
    h1Chain [none, some "Tours"] = none
    ∧ extract_tour_name ⟨[none, some "Tours"], none⟩ ≠ "Tours" := by
  constructor
  · refine tours_h1_rejected.1 [none, some "Tours"] ?_
    intro o ho
    simp only [List.mem_cons, List.not_mem_nil, or_false, List.mem_singleton] at ho
    rcases ho with rfl | rfl
    · exact Or.inl rfl
    · exact Or.inr ⟨"Tours", rfl, by decide⟩
  · exact tours_h1_rejected.2 ⟨[none, some "Tours"], none⟩

/-- Claim C10 (confirmed): any h1 candidate whose lowercased text ends in
"tours" or starts with "book" fails h1 validation, whatever its length; the
title-tag path omits the ends-with check, so the genuine name
"Amazing Asia Tours" is rejected by the h1 chain yet produced through the
title tag. -/
theorem h1_suffix_reject :
    (∀ t : List Char,
        (endsWithC "tours".data (lowerC t) || startsWithC "book".data (lowerC t)) = true →
        h1Valid t = false)
    ∧ titleValid (cleanTitle (stripC "Amazing Asia Tours".data)) = true
    ∧ h1Valid (stripC "Amazing Asia Tours".data) = false
    ∧ extract_tour_name ⟨[some "Amazing Asia Tours"], some "Amazing Asia Tours"⟩
        = "Amazing Asia Tours" := by
  refine ⟨?_, by decide, by decide, by decide⟩
  intro t ht
  cases he : endsWithC "tours".data (lowerC t) <;>
    cases hs : startsWithC "book".data (lowerC t) <;>
    simp [he, hs] at ht ⊢ <;>
    simp [h1Valid, he, hs]

/-- Witness for C10 at the concrete candidate "Asia Tours". -/
theorem h1_suffix_reject_witness :
    h1Valid "Asia Tours".data = false :=
  h1_suffix_reject.1 "Asia Tours".data (by decide)

theorem set_get_self (m : CurrencyMap) (c : Currency) (v : Option Int) :
    (m.set c v).get c = v := by
  cases c <;> rfl

theorem set_get_ne (m : CurrencyMap) (c c' : Currency) (v : Option Int)
    (h : c ≠ c') : (m.set c v).get c' = m.get c' := by
  cases c <;> cases c' <;> first | rfl | exact absurd rfl h

theorem stepCurrency_get_ne (fetch : Currency → Except String (List String))
    (acc : CurrencyMap) (c' c : Currency) (h : c' ≠ c) :
    (stepCurrency fetch acc c').get c = acc.get c := by
  unfold stepCurrency
  cases fetch c' with
  | error e => rfl
  | ok page =>
    dsimp only
    by_cases hp : extract_price_for_currency page c' ≠ 0
    · rw [if_pos hp]
      exact set_get_ne _ _ _ _ h
    · rw [if_neg hp]

theorem foldl_step_get (fetch : Currency → Except String (List String))
    (c : Currency) :
    ∀ (l : List Currency) (acc : CurrencyMap), c ∉ l →
      (l.foldl (stepCurrency fetch) acc).get c = acc.get c := by
  intro l
  induction l with
  | nil => intro acc _; rfl
  | cons x xs ih =>
    intro acc h
    rw [List.foldl_cons]
    have hx : x ≠ c := fun he => h (he ▸ List.mem_cons_self _ _)
    have hxs : c ∉ xs := fun hm => h (List.mem_cons_of_mem _ hm)
    rw [ih _ hxs, stepCurrency_get_ne fetch acc x c hx]

theorem step_get_self_eq (fetch : Currency → Except String (List String))
    (acc p0 : CurrencyMap) (c : Currency) (hacc : acc.get c = p0.get c) :
    (stepCurrency fetch acc c).get c =
      match fetch c with
      | .error _ => p0.get c
      | .ok page =>
        if extract_price_for_currency page c ≠ 0
        then some ((extract_price_for_currency page c : Int)) else p0.get c := by
  unfold stepCurrency
  cases fetch c with
  | error e => exact hacc
  | ok page =>
    dsimp only
    by_cases hp : extract_price_for_currency page c ≠ 0
    · rw [if_pos hp, if_pos hp]
      exact set_get_self _ _ _
    · rw [if_neg hp, if_neg hp]
      exact hacc

theorem extract_all_get (fetch : Currency → Except String (List String))
    (p0 : CurrencyMap) (c : Currency) :
    (extract_all_currency_prices fetch p0).get c =
      match fetch c with
      | .error _ => p0.get c
      | .ok page =>
        if extract_price_for_currency page c ≠ 0
        then some ((extract_price_for_currency page c : Int)) else p0.get c := by
  cases c with
  | USD =>
    simp only [extract_all_currency_prices, currencyOrder, List.foldl_cons, List.foldl_nil]
    rw [stepCurrency_get_ne fetch _ .AUD .USD (by decide),
        stepCurrency_get_ne fetch _ .CAD .USD (by decide),
        stepCurrency_get_ne fetch _ .EUR .USD (by decide),
        stepCurrency_get_ne fetch _ .GBP .USD (by decide),
        stepCurrency_get_ne fetch _ .NZD .USD (by decide)]
    exact step_get_self_eq fetch p0 p0 .USD rfl
  | NZD =>
    simp only [extract_all_currency_prices, currencyOrder, List.foldl_cons, List.foldl_nil]
    rw [stepCurrency_get_ne fetch _ .AUD .NZD (by decide),
        stepCurrency_get_ne fetch _ .CAD .NZD (by decide),
        stepCurrency_get_ne fetch _ .EUR .NZD (by decide),
        stepCurrency_get_ne fetch _ .GBP .NZD (by decide)]
    exact step_get_self_eq fetch _ p0 .NZD
      (stepCurrency_get_ne fetch p0 .USD .NZD (by decide))
  | GBP =>
    simp only [extract_all_currency_prices, currencyOrder, List.foldl_cons, List.foldl_nil]
    rw [stepCurrency_get_ne fetch _ .AUD .GBP (by decide),
        stepCurrency_get_ne fetch _ .CAD .GBP (by decide),
        stepCurrency_get_ne fetch _ .EUR .GBP (by decide)]
    refine step_get_self_eq fetch _ p0 .GBP ?_
    rw [stepCurrency_get_ne fetch _ .NZD .GBP (by decide),
        stepCurrency_get_ne fetch p0 .USD .GBP (by decide)]
  | EUR =>
    simp only [extract_all_currency_prices, currencyOrder, List.foldl_cons, List.foldl_nil]
    rw [stepCurrency_get_ne fetch _ .AUD .EUR (by decide),
        stepCurrency_get_ne fetch _ .CAD .EUR (by decide)]
    refine step_get_self_eq fetch _ p0 .EUR ?_
    rw [stepCurrency_get_ne fetch _ .GBP .EUR (by decide),
        stepCurrency_get_ne fetch _ .NZD .EUR (by decide),
        stepCurrency_get_ne fetch p0 .USD .EUR (by decide)]
  | CAD =>
    simp only [extract_all_currency_prices, currencyOrder, List.foldl_cons, List.foldl_nil]
    rw [stepCurrency_get_ne fetch _ .AUD .CAD (by decide)]
    refine step_get_self_eq fetch _ p0 .CAD ?_
    rw [stepCurrency_get_ne fetch _ .EUR .CAD (by decide),
        stepCurrency_get_ne fetch _ .GBP .CAD (by decide),
        stepCurrency_get_ne fetch _ .NZD .CAD (by decide),
        stepCurrency_get_ne fetch p0 .USD .CAD (by decide)]
  | AUD =>
    simp only [extract_all_currency_prices, currencyOrder, List.foldl_cons, List.foldl_nil]
    refine step_get_self_eq fetch _ p0 .AUD ?_
    rw [stepCurrency_get_ne fetch _ .CAD .AUD (by decide),
        stepCurrency_get_ne fetch _ .EUR .AUD (by decide),
        stepCurrency_get_ne fetch _ .GBP .AUD (by decide),
        stepCurrency_get_ne fetch _ .NZD .AUD (by decide),
        stepCurrency_get_ne fetch p0 .USD .AUD (by decide)]

theorem initPriceMap_get (c : Currency) : initPriceMap.get c = some 0 := by
  cases c <;> rfl

/-- Claim C5 (confirmed): each currency iteration is fault-isolated — an
exception while switching/fetching/parsing one currency leaves that
currency at its default 0 and does not affect any other currency, whose
result depends only on its own fetch; a currency whose extraction finds no
plausible price (result 0, falsy) also keeps the default 0, and a nonzero
extracted price is stored as is. -/
theorem currency_fault_isolation :
    (∀ (fetch : Currency → Except String (List String)) (c : Currency) (e : String),
        fetch c = .error e →
        (extract_all_currency_prices fetch initPriceMap).get c = some 0)
    ∧ (∀ (fetch : Currency → Except String (List String)) (c : Currency)
        (page : List String),
        fetch c = .ok page → extract_price_for_currency page c = 0 →
        (extract_all_currency_prices fetch initPriceMap).get c = some 0)
    ∧ (∀ (fetch₁ fetch₂ : Currency → Except String (List String)) (c : Currency)
        (p0 : CurrencyMap), fetch₁ c = fetch₂ c →
        (extract_all_currency_prices fetch₁ p0).get c
          = (extract_all_currency_prices fetch₂ p0).get c)
    ∧ (∀ (fetch : Currency → Except String (List String)) (c : Currency)
        (page : List String),
        fetch c = .ok page → extract_price_for_currency page c ≠ 0 →
        (extract_all_currency_prices fetch initPriceMap).get c
          = some ((extract_price_for_currency page c : Int))) := by
  refine ⟨?_, ?_, ?_, ?_⟩
  · intro fetch c e h
    rw [extract_all_get fetch initPriceMap c, h]
    exact initPriceMap_get c
  · intro fetch c page h h0
    rw [extract_all_get fetch initPriceMap c, h]
    dsimp only
    rw [if_neg (not_not_intro h0)]
    exact initPriceMap_get c
  · intro fetch₁ fetch₂ c p0 h
    rw [extract_all_get fetch₁ p0 c, extract_all_get fetch₂ p0 c, h]
  · intro fetch c page h h0
    rw [extract_all_get fetch initPriceMap c, h]
    dsimp only
    rw [if_pos h0]

/-- Witness for C5: a fetch that fails exactly on EUR leaves EUR at 0 while
USD still gets its extracted price 1299. -/
theorem currency_fault_isolation_witness :
    (extract_all_currency_prices
        (fun c => if c = .EUR then .error "boom" else .ok ["From $1,299 pp"])
        initPriceMap).get .EUR = some 0
    ∧ (extract_all_currency_prices
        (fun c => if c = .EUR then .error "boom" else .ok ["From $1,299 pp"])
        initPriceMap).get .USD = some 1299 := by
  constructor
  · exact currency_fault_isolation.1 _ .EUR "boom" rfl
  · have h := currency_fault_isolation.2.2.2
      (fun c => if c = .EUR then .error "boom" else .ok ["From $1,299 pp"])
      .USD ["From $1,299 pp"] rfl (by decide)
    rw [show extract_price_for_currency ["From $1,299 pp"] Currency.USD = 1299
          from by decide] at h
    exact h

theorem dedupAux_sublist (l : List String) :
    ∀ seen : List String, List.Sublist (dedupFirstAux seen l) l := by
  induction l with
  | nil => intro seen; exact List.Sublist.refl _
  | cons d rest ih =>
    intro seen
    simp only [dedupFirstAux]
    by_cases h : seen.contains d = true
    · rw [if_pos h]
      exact (ih seen).cons d
    · rw [if_neg h]
      exact (ih (d :: seen)).cons₂ d

theorem mem_dedupAux (l : List String) :
    ∀ (seen : List String) (x : String),
      x ∈ dedupFirstAux seen l ↔ (x ∈ l ∧ seen.contains x = false) := by
  induction l with
  | nil => intro seen x; simp [dedupFirstAux]
  | cons d rest ih =>
    intro seen x
    simp only [dedupFirstAux]
    by_cases h : seen.contains d = true
    · rw [if_pos h, ih seen x]
      constructor
      · rintro ⟨hx, hc⟩
        exact ⟨List.mem_cons_of_mem _ hx, hc⟩
      · rintro ⟨hx, hc⟩
        rcases List.mem_cons.mp hx with rfl | hx'
        · rw [h] at hc; cases hc
        · exact ⟨hx', hc⟩
    · rw [if_neg h]
      constructor
      · intro hx
        rcases List.mem_cons.mp hx with rfl | hx'
        · exact ⟨List.mem_cons_self _ _, by revert h; cases seen.contains x <;> simp⟩
        · rw [ih (d :: seen) x] at hx'
          obtain ⟨hxr, hcc⟩ := hx'
          rw [List.contains_cons] at hcc
          rcases Bool.or_eq_false_iff.mp hcc with ⟨_, h2⟩
          exact ⟨List.mem_cons_of_mem _ hxr, h2⟩
      · rintro ⟨hx, hc⟩
        rcases List.mem_cons.mp hx with rfl | hx'
        · exact List.mem_cons_self _ _
        · by_cases hxd : x = d
          · subst hxd
            exact List.mem_cons_self _ _
          · refine List.mem_cons_of_mem _ ?_
            rw [ih (d :: seen) x]
            refine ⟨hx', ?_⟩
            rw [List.contains_cons, hc, beq_eq_false_iff_ne.mpr hxd]
            rfl

theorem nodup_dedupAux (l : List String) :
    ∀ seen : List String, (dedupFirstAux seen l).Nodup := by
  induction l with
  | nil => intro seen; exact List.nodup_nil
  | cons d rest ih =>
    intro seen
    simp only [dedupFirstAux]
    by_cases h : seen.contains d = true
    · rw [if_pos h]; exact ih seen
    · rw [if_neg h]
      rw [List.nodup_cons]
      refine ⟨?_, ih (d :: seen)⟩
      intro hmem
      rw [mem_dedupAux] at hmem
      obtain ⟨_, hc⟩ := hmem
      rw [List.contains_cons] at hc
      simp at hc

theorem extract_tour_dates_success (fetchPage : Except String String)
    (table : DatesTable) (h : extract_tour_id_from_page fetchPage ≠ none) :
    extract_tour_dates fetchPage (.ok (some table))
      = dedupFirst (dateEntriesOfTable table) := by
  unfold extract_tour_dates
  rcases hid : extract_tour_id_from_page fetchPage with _ | tid
  · exact absurd hid h
  · dsimp only
    cases hl : dateEntriesOfTable table with
    | nil => rfl
    | cons a as => rw [if_neg (by simp)]

/-- Claim C6 (confirmed): the starting-dates extractor is atomic in
failure — a failed page fetch, a missing numeric tour id, a failed
sub-resource request, or a response without the html field each yield the
empty list, never a partial one; on success the result is the entry list
deduplicated preserving first-seen order (an order-preserving sublist with
no duplicates and the same members). -/
theorem tour_dates_atomic_dedup :
    (∀ (e : String) (fd : Except String (Option DatesTable)),
        extract_tour_dates (.error e) fd = [])
    ∧ (∀ (pg : Except String String) (fd : Except String (Option DatesTable)),
        extract_tour_id_from_page pg = none → extract_tour_dates pg fd = [])
    ∧ (∀ (pg : Except String String) (e : String),
        extract_tour_dates pg (.error e) = [])
    ∧ (∀ pg : Except String String, extract_tour_dates pg (.ok none) = [])
    ∧ (∀ (pg : Except String String) (table : DatesTable),
        extract_tour_id_from_page pg ≠ none →
        List.Sublist (extract_tour_dates pg (.ok (some table)))
            (dateEntriesOfTable table)
        ∧ (extract_tour_dates pg (.ok (some table))).Nodup
        ∧ (∀ s, s ∈ extract_tour_dates pg (.ok (some table))
              ↔ s ∈ dateEntriesOfTable table)) := by
  refine ⟨fun e fd => rfl, ?_, ?_, ?_, ?_⟩
  · intro pg fd h
    unfold extract_tour_dates
    rw [h]
  · intro pg e
    unfold extract_tour_dates
    rcases hid : extract_tour_id_from_page pg with _ | t <;> rfl
  · intro pg
    unfold extract_tour_dates
    rcases hid : extract_tour_id_from_page pg with _ | t <;> rfl
  · intro pg table h
    rw [extract_tour_dates_success pg table h]
    refine ⟨dedupAux_sublist _ _, nodup_dedupAux _ _, fun s => ?_⟩
    constructor
    · intro hx
      exact ((mem_dedupAux _ _ _).mp hx).1
    · intro hx
      exact (mem_dedupAux _ _ _).mpr ⟨hx, rfl⟩

/-- Witness for C6 on a concrete page and table: the success-case
properties hold for the two-row table. -/
theorem tour_dates_atomic_dedup_witness :
    List.Sublist
      (extract_tour_dates (.ok "zz/tour/483/tour-dates") (.ok (some c6Table)))
      (dateEntriesOfTable c6Table)
    ∧ (extract_tour_dates (.ok "zz/tour/483/tour-dates") (.ok (some c6Table))).Nodup
    ∧ (∀ s, s ∈ extract_tour_dates (.ok "zz/tour/483/tour-dates") (.ok (some c6Table))
          ↔ s ∈ dateEntriesOfTable c6Table) :=
  tour_dates_atomic_dedup.2.2.2.2 (.ok "zz/tour/483/tour-dates") c6Table (by decide)

theorem enhance_tour_eqs (gp : List (String × CurrencyMap))
    (cd : List (String × List CsvRow)) (t : Tour) (h : t.tour_name ≠ "") :
    (enhance_tour gp cd t).price
        = (match (match lookupAssoc t.tour_name gp with
            | some p => some p
            | none => lookupAssoc (normalize_tour_name t.tour_name) gp) with
           | some p => p
           | none => t.price)
    ∧ (enhance_tour gp cd t).starting_dates
        = (if t.starting_dates.isEmpty = true then t.starting_dates
           else match (if truthyRows (lookupAssoc t.tour_name cd) = true
               then lookupAssoc t.tour_name cd
               else lookupAssoc (normalize_tour_name t.tour_name) cd) with
             | none => t.starting_dates
             | some rows =>
               if rows.isEmpty = true then t.starting_dates
               else t.starting_dates.map (enhanceDateEntry rows)) := by
  unfold enhance_tour
  rw [if_neg h]
  dsimp only
  cases hg : lookupAssoc t.tour_name gp with
  | some p =>
    dsimp only
    by_cases hsd : t.starting_dates.isEmpty = true
    · rw [if_pos hsd, if_pos hsd]
      exact ⟨rfl, rfl⟩
    · rw [if_neg hsd, if_neg hsd]
      cases hcd : (if truthyRows (lookupAssoc t.tour_name cd) = true
          then lookupAssoc t.tour_name cd
          else lookupAssoc (normalize_tour_name t.tour_name) cd) with
      | none => exact ⟨rfl, rfl⟩
      | some rows =>
        dsimp only
        by_cases hr : rows.isEmpty = true
        · rw [if_pos hr, if_pos hr]; exact ⟨rfl, rfl⟩
        · rw [if_neg hr, if_neg hr]; exact ⟨rfl, rfl⟩
  | none =>
    dsimp only
    cases hg2 : lookupAssoc (normalize_tour_name t.tour_name) gp with
    | some p =>
      dsimp only
      by_cases hsd : t.starting_dates.isEmpty = true
      · rw [if_pos hsd, if_pos hsd]
        exact ⟨rfl, rfl⟩
      · rw [if_neg hsd, if_neg hsd]
        cases hcd : (if truthyRows (lookupAssoc t.tour_name cd) = true
            then lookupAssoc t.tour_name cd
            else lookupAssoc (normalize_tour_name t.tour_name) cd) with
        | none => exact ⟨rfl, rfl⟩
        | some rows =>
          dsimp only
          by_cases hr : rows.isEmpty = true
          · rw [if_pos hr, if_pos hr]; exact ⟨rfl, rfl⟩
          · rw [if_neg hr, if_neg hr]; exact ⟨rfl, rfl⟩
    | none =>
      dsimp only
      by_cases hsd : t.starting_dates.isEmpty = true
      · rw [if_pos hsd, if_pos hsd]
        exact ⟨rfl, rfl⟩
      · rw [if_neg hsd, if_neg hsd]
        cases hcd : (if truthyRows (lookupAssoc t.tour_name cd) = true
            then lookupAssoc t.tour_name cd
            else lookupAssoc (normalize_tour_name t.tour_name) cd) with
        | none => exact ⟨rfl, rfl⟩
        | some rows =>
          dsimp only
          by_cases hr : rows.isEmpty = true
          · rw [if_pos hr, if_pos hr]; exact ⟨rfl, rfl⟩
          · rw [if_neg hr, if_neg hr]; exact ⟨rfl, rfl⟩

theorem enhance_tour_shape (gp : List (String × CurrencyMap))
    (cd : List (String × List CsvRow)) (t : Tour) :
    ∃ pr sd, enhance_tour gp cd t = { t with price := pr, starting_dates := sd } := by
  unfold enhance_tour
  by_cases h : t.tour_name = ""
  · rw [if_pos h]
    exact ⟨_, _, rfl⟩
  · rw [if_neg h]
    dsimp only
    cases hg : lookupAssoc t.tour_name gp with
    | some p =>
      dsimp only
      by_cases hsd : t.starting_dates.isEmpty = true
      · rw [if_pos hsd]; exact ⟨_, _, rfl⟩
      · rw [if_neg hsd]
        cases hcd : (if truthyRows (lookupAssoc t.tour_name cd) = true
            then lookupAssoc t.tour_name cd
            else lookupAssoc (normalize_tour_name t.tour_name) cd) with
        | none => exact ⟨_, _, rfl⟩
        | some rows =>
          dsimp only
          by_cases hr : rows.isEmpty = true
          · rw [if_pos hr]; exact ⟨_, _, rfl⟩
          · rw [if_neg hr]; exact ⟨_, _, rfl⟩
    | none =>
      dsimp only
      cases hg2 : lookupAssoc (normalize_tour_name t.tour_name) gp with
      | some p =>
        dsimp only
        by_cases hsd : t.starting_dates.isEmpty = true
        · rw [if_pos hsd]; exact ⟨_, _, rfl⟩
        · rw [if_neg hsd]
          cases hcd : (if truthyRows (lookupAssoc t.tour_name cd) = true
              then lookupAssoc t.tour_name cd
              else lookupAssoc (normalize_tour_name t.tour_name) cd) with
          | none => exact ⟨_, _, rfl⟩
          | some rows =>
            dsimp only
            by_cases hr : rows.isEmpty = true
            · rw [if_pos hr]; exact ⟨_, _, rfl⟩
            · rw [if_neg hr]; exact ⟨_, _, rfl⟩
      | none =>
        dsimp only
        by_cases hsd : t.starting_dates.isEmpty = true
        · rw [if_pos hsd]; exact ⟨_, _, rfl⟩
        · rw [if_neg hsd]
          cases hcd : (if truthyRows (lookupAssoc t.tour_name cd) = true
              then lookupAssoc t.tour_name cd
              else lookupAssoc (normalize_tour_name t.tour_name) cd) with
          | none => exact ⟨_, _, rfl⟩
          | some rows =>
            dsimp only
            by_cases hr : rows.isEmpty = true
            · rw [if_pos hr]; exact ⟨_, _, rfl⟩
            · rw [if_neg hr]; exact ⟨_, _, rfl⟩

/-- Claim C9 (confirmed): the merge step touches at most the price and
starting-dates slices of a tour record — every other top-level key is
unchanged; a tour with an empty name is returned untouched, and a tour
whose name matches no ledger key, exactly or normalized, keeps its
starting-dates list exactly. -/
theorem merge_frame :
    ∀ (gp : List (String × CurrencyMap)) (cd : List (String × List CsvRow)) (t : Tour),
      ((enhance_tour gp cd t).tour_name = t.tour_name
        ∧ (enhance_tour gp cd t).tour_id = t.tour_id
        ∧ (enhance_tour gp cd t).url = t.url
        ∧ (enhance_tour gp cd t).country = t.country
        ∧ (enhance_tour gp cd t).last_updated = t.last_updated
        ∧ (enhance_tour gp cd t).status = t.status
        ∧ (enhance_tour gp cd t).tour_colour = t.tour_colour
        ∧ (enhance_tour gp cd t).seo_data = t.seo_data
        ∧ (enhance_tour gp cd t).tour_information = t.tour_information
        ∧ (enhance_tour gp cd t).itinerary = t.itinerary)
      ∧ (t.tour_name = "" → enhance_tour gp cd t = t)
      ∧ (lookupAssoc t.tour_name cd = none →
         lookupAssoc (normalize_tour_name t.tour_name) cd = none →
         (enhance_tour gp cd t).starting_dates = t.starting_dates) := by
  intro gp cd t
  obtain ⟨pr, sd, hshape⟩ := enhance_tour_shape gp cd t
  refine ⟨?_, ?_, ?_⟩
  · rw [hshape]
    exact ⟨rfl, rfl, rfl, rfl, rfl, rfl, rfl, rfl, rfl, rfl⟩
  · intro h
    unfold enhance_tour
    rw [if_pos h]
  · intro h1 h2
    by_cases h : t.tour_name = ""
    · unfold enhance_tour
      rw [if_pos h]
    · rw [(enhance_tour_eqs gp cd t h).2, h1, h2, ite_self]
      dsimp only
      rw [ite_self]

/-- Witness for C9 at a concrete tour with empty lookup tables. -/
theorem merge_frame_witness :
    (enhance_tour [] [] c1Tour).starting_dates = c1Tour.starting_dates
    ∧ enhance_tour [] [] { c1Tour with tour_name := "" }
        = { c1Tour with tour_name := "" } :=
  ⟨(merge_frame [] [] c1Tour).2.2 rfl rfl,
   (merge_frame [] [] { c1Tour with tour_name := "" }).2.1 rfl⟩

theorem priceNullToZero_get (m : CurrencyMap) (c : Currency) :
    (priceNullToZero m).get c = zeroIfNone (m.get c) := by
  cases c <;> rfl

theorem zeroIfNone_isSome (x : Option Int) : (zeroIfNone x).isSome = true := by
  cases x <;> rfl

/-- Counterexample to claim C1: a global-pricing row whose EUR cell is
missing is loaded as a null EUR price, and the merge writes that table
entry wholesale over the tour record, so the merged output carries a null
price_EUR — the claimed never-null invariant fails after the overwrite. -/
theorem price_null_after_merge_cex :
    (enhance_tour (load_global_prices [c1Row]) [] c1Tour).price.get .EUR = none
    ∧ (enhance_tour (load_global_prices [c1Row]) [] c1Tour).price.get .USD
        = some 1200 := by
  exact ⟨by decide, by decide⟩

/-- Claim C1 (corrected): in the extractor output the claimed invariant
holds — the validation pass leaves every currency price non-null, and the
currency extractor only ever produces non-negative values over the all-zero
initial map.  The merge, however, replaces the whole price map by the
global-table entry when the exact or normalized name matches, and each such
table entry is the raw parse of the "Main Price C" cell: null whenever the
cell is empty (or unparseable).  So after the overwrite price_C is the
parsed cell value, not a guaranteed non-negative integer. -/
theorem price_fields_after_merge :
    (∀ (t : Tour) (c : Currency),
        ((validate_and_clean_data t).price.get c).isSome = true)
    ∧ (∀ (fetch : Currency → Except String (List String)) (c : Currency),
        ∃ n : Nat,
          (extract_all_currency_prices fetch initPriceMap).get c = some ((n : Int)))
    ∧ (∀ (gp : List (String × CurrencyMap)) (cd : List (String × List CsvRow))
        (t : Tour),
        (enhance_tour gp cd t).price = t.price
        ∨ ∃ p, (lookupAssoc t.tour_name gp = some p
              ∨ lookupAssoc (normalize_tour_name t.tour_name) gp = some p)
            ∧ (enhance_tour gp cd t).price = p)
    ∧ (∀ (row : RawRow) (c : Currency),
        (loadGlobalRowPrices row).get c
          = parsePriceCell (rowGet row ("Main Price " ++ c.code)))
    ∧ parsePriceCell "" = none := by
  refine ⟨?_, ?_, ?_, ?_, rfl⟩
  · intro t c
    have h : (validate_and_clean_data t).price = priceNullToZero t.price := rfl
    rw [h, priceNullToZero_get]
    exact zeroIfNone_isSome _
  · intro fetch c
    rw [extract_all_get fetch initPriceMap c]
    cases hf : fetch c with
    | error e =>
      dsimp only
      exact ⟨0, initPriceMap_get c⟩
    | ok page =>
      dsimp only
      by_cases hp : extract_price_for_currency page c ≠ 0
      · rw [if_pos hp]
        exact ⟨_, rfl⟩
      · rw [if_neg hp]
        exact ⟨0, initPriceMap_get c⟩
  · intro gp cd t
    by_cases h : t.tour_name = ""
    · left
      unfold enhance_tour
      rw [if_pos h]
    · obtain ⟨hp, _⟩ := enhance_tour_eqs gp cd t h
      cases hg : lookupAssoc t.tour_name gp with
      | some p =>
        right
        refine ⟨p, Or.inl rfl, ?_⟩
        rw [hp, hg]
      | none =>
        cases hg2 : lookupAssoc (normalize_tour_name t.tour_name) gp with
        | some p =>
          right
          refine ⟨p, Or.inr rfl, ?_⟩
          rw [hp, hg, hg2]
        | none =>
          left
          rw [hp, hg, hg2]
  · intro row c
    cases c <;> rfl

/-- Counterexample to claim C2: a tour with one parseable and one
unparseable display string, reconciled against a ledger that matches its
name, ends with a starting-dates list holding an enriched object and a bare
string at once. -/
theorem reconciliation_mixed_cex :
    mixedForms ((enhance_tour [] [("Alpha", [c2Row])] c2Tour).starting_dates) = true
    ∧ (enhance_tour [] [("Alpha", [c2Row])] c2Tour).starting_dates
        = [.enriched "6 Oct - 19 Oct 2025 - Book Now" "Book Now" (some 3) (some c2Prices),
           .bare "TBC"] := by
  exact ⟨by decide, by decide⟩

/-- Claim C2 (corrected): when reconciliation rewrites a starting-dates
list it maps every entry individually — an unparseable string stays bare,
a parseable one becomes enriched — so the rewritten list is uniform only
when all entries parse or none does; lists with mixed parseability mix
the two forms. -/
theorem reconciliation_form_characterization :
    (∀ (rows : List CsvRow) (s : String),
        extract_dates_from_json_string s = none →
        enhanceDateEntry rows (.bare s) = .bare s)
    ∧ (∀ (rows : List CsvRow) (s : String) (sd ed : Date) (st : String),
        extract_dates_from_json_string s = some (sd, ed, st) →
        (enhanceDateEntry rows (.bare s)).isBare = false)
    ∧ (∀ (gp : List (String × CurrencyMap)) (cd : List (String × List CsvRow))
        (t : Tour),
        (enhance_tour gp cd t).starting_dates = t.starting_dates
        ∨ ∃ rows, (enhance_tour gp cd t).starting_dates
            = t.starting_dates.map (enhanceDateEntry rows)) := by
  refine ⟨?_, ?_, ?_⟩
  · intro rows s hnone
    unfold enhanceDateEntry
    dsimp only
    rw [hnone]
  · intro rows s sd ed st hsome
    unfold enhanceDateEntry
    dsimp only
    rw [hsome]
    dsimp only
    cases match_dates s rows <;> rfl
  · intro gp cd t
    by_cases h : t.tour_name = ""
    · left
      unfold enhance_tour
      rw [if_pos h]
    · obtain ⟨_, hsd⟩ := enhance_tour_eqs gp cd t h
      rw [hsd]
      by_cases he : t.starting_dates.isEmpty = true
      · left
        rw [if_pos he]
      · rw [if_neg he]
        cases hcd : (if truthyRows (lookupAssoc t.tour_name cd) = true
            then lookupAssoc t.tour_name cd
            else lookupAssoc (normalize_tour_name t.tour_name) cd) with
        | none => left; rfl
        | some rows =>
          by_cases hr : rows.isEmpty = true
          · left
            dsimp only
            rw [if_pos hr]
          · right
            refine ⟨rows, ?_⟩
            dsimp only
            rw [if_neg hr]

/-- Witness for the amended C2 on concrete entries: the unparseable string
stays bare, the parseable one is enriched. -/
theorem reconciliation_form_witness :
    enhanceDateEntry [c2Row] (.bare "TBC") = .bare "TBC"
    ∧ (enhanceDateEntry [c2Row] (.bare "6 Oct - 19 Oct 2025 - Book Now")).isBare
        = false :=
  ⟨reconciliation_form_characterization.1 [c2Row] "TBC" (by decide),
   reconciliation_form_characterization.2.1 [c2Row] "6 Oct - 19 Oct 2025 - Book Now"
     ⟨2025, 10, 6⟩ ⟨2025, 10, 19⟩ "Book Now" (by decide)⟩

/-- Claim C3 (confirmed): reconciliation matches a display string to a
ledger row by exact calendar-date equality on both endpoints — a returned
row always parses the string and equals it on both dates, and if no row
matches both endpoints the lookup yields none; the example string
"6 Oct - 19 Oct 2025 - Book Now" parses with the start year borrowed from
the end segment, is enriched with spaces 3 and the price matrix against the
matching ledger row, and is enriched with nulls against a non-matching
one. -/
theorem date_matching_exact :
    (∀ (s : String) (rows : List CsvRow) (r : CsvRow),
        match_dates s rows = some r →
        ∃ sd ed st, extract_dates_from_json_string s = some (sd, ed, st)
          ∧ r ∈ rows ∧ r.start_date = sd ∧ r.end_date = ed)
    ∧ (∀ (s : String) (rows : List CsvRow) (sd ed : Date) (st : String),
        extract_dates_from_json_string s = some (sd, ed, st) →
        (∀ r ∈ rows, ¬(r.start_date = sd ∧ r.end_date = ed)) →
        match_dates s rows = none)
    ∧ extract_dates_from_json_string "6 Oct - 19 Oct 2025 - Book Now"
        = some (⟨2025, 10, 6⟩, ⟨2025, 10, 19⟩, "Book Now")
    ∧ enhanceDateEntry [c3Row] (.bare "6 Oct - 19 Oct 2025 - Book Now")
        = .enriched "6 Oct - 19 Oct 2025 - Book Now" "Book Now" (some 3)
            (some c3Row.prices)
    ∧ enhanceDateEntry [c3RowOther] (.bare "6 Oct - 19 Oct 2025 - Book Now")
        = .enriched "6 Oct - 19 Oct 2025 - Book Now" "Book Now" none none := by
  refine ⟨?_, ?_, by decide, by decide, by decide⟩
  · intro s rows r h
    unfold match_dates at h
    cases hx : extract_dates_from_json_string s with
    | none =>
      rw [hx] at h
      exact Option.noConfusion h
    | some trip =>
      obtain ⟨sd, ed, st⟩ := trip
      rw [hx] at h
      dsimp only at h
      have hmem := List.mem_of_find?_eq_some h
      have hp := List.find?_some h
      have hpp := of_decide_eq_true hp
      exact ⟨sd, ed, st, rfl, hmem, hpp.1, hpp.2⟩
  · intro s rows sd ed st hx hnone
    unfold match_dates
    rw [hx]
    dsimp only
    exact List.find?_eq_none.mpr (fun r hr hd => hnone r hr (of_decide_eq_true hd))

/-- Witness for C3: the general exact-equality property applied to the
example string and the matching ledger row. -/
theorem date_matching_exact_witness :
    ∃ sd ed st,
      extract_dates_from_json_string "6 Oct - 19 Oct 2025 - Book Now"
        = some (sd, ed, st)
      ∧ c3Row ∈ [c3Row] ∧ c3Row.start_date = sd ∧ c3Row.end_date = ed :=
  date_matching_exact.1 "6 Oct - 19 Oct 2025 - Book Now" [c3Row] c3Row (by decide)

end BT
